import Mathlib

/-!
# SmartCalculator: `src/utils/Electrical.h`

A shallow embedding of the keypad scanner, the seven-segment encoder, the
display driver, the reset sequence and the battery monitor of `Electrical.h`,
followed by theorems about them.

Conventions of the embedding:

* a C `char` is its integer value (`Int`, so that both a signed and an unsigned
  `char` are covered); `unsigned int` and `unsigned char` are `Nat`, with an
  explicit `% 2 ^ 32` where the source can wrap;
* the byte-addressed display registers are a byte memory `Nat → Nat` keyed by
  absolute address, together with the log of the stores issued to it;
* the `volatile` GPIO words are reached through a `Port`: a load may return
  anything and may change the device, so a theorem stated for every port holds
  for every sequence of register readings.
-/

namespace SmartCalculator

/-! ## Constants -/

def KEYPAD_ROWS : Nat := 4
def KEYPAD_COLS : Nat := 4
def UINT_MAX : Nat := 4294967295

/-- Byte address held by the pointer `GPIO0_ADDR`. -/
def GPIO0_ADDR : Nat := 0xFF708000

def rowSelect : List Nat := [0b1000, 0b100, 0b10, 0b1]
def colSelect : List Nat := [0b10000000, 0b1000000, 0b100000, 0b10000]

/-- Segment codes of the digits 0-9. -/
def lookup : List Nat := [0x3F, 0x06, 0x5B, 0x4F, 0x66, 0x6D, 0x7D, 0x07, 0x7F, 0x67]

def decPointChar : Nat := 0b1000
def expChar : Nat := 0b100011
def sinChar : Nat := 0b1101101
def cosChar : Nat := 0b1011000
def tanChar : Nat := 0b1111000
def lnChar : Nat := 0b111000
def plusChar : Nat := 0b1000110
def multChar : Nat := 0b1110110
def subChar : Nat := 0b1000000
def divChar : Nat := 0b1100100
def factChar : Nat := 0b1110001
def leftBracketChar : Nat := 0b111001
def rightBracketChar : Nat := 0b1111

/-- Byte address held by the pointer `hexBaseAddr_Low`. -/
def hexBaseAddr_Low : Nat := 0xFF200020
/-- Byte address held by the pointer `hexBaseAddr_High`. -/
def hexBaseAddr_High : Nat := 0xFF200030

/-! ## Seven-segment encoder -/

/-- Integer value of a character constant such as `'0'`. -/
def charCode (c : Char) : Int := Int.ofNat c.toNat

/-- The function `decodeChar`: the digit test first, then the `switch`, whose
`default` returns 0. -/
def decodeChar (character : Int) : Nat :=
  if charCode '0' ≤ character ∧ character ≤ charCode '9' then
    lookup.getD (character - charCode '0').toNat 0
  else if character = charCode '.' then decPointChar
  else if character = charCode '^' then expChar
  else if character = charCode 's' then sinChar
  else if character = charCode 'c' then cosChar
  else if character = charCode 't' then tanChar
  else if character = charCode 'l' then lnChar
  else if character = charCode '+' then plusChar
  else if character = charCode '*' then multChar
  else if character = charCode '-' then subChar
  else if character = charCode '/' then divChar
  else if character = charCode '!' then factChar
  else if character = charCode '(' then leftBracketChar
  else if character = charCode ')' then rightBracketChar
  else 0

/-! ## Display driver -/

/-- The display registers: the byte memory behind the two `unsigned char *`
bases, and the stores issued so far, oldest first, each as (address, byte). -/
structure Display where
  bytes : Nat → Nat
  writes : List (Nat × Nat)

/-- One byte store `*(addr) = value`. -/
def Display.store (d : Display) (addr value : Nat) : Display :=
  { bytes := fun a => if a = addr then value else d.bytes a
    writes := d.writes ++ [(addr, value)] }

/-- The function `writeToDisplay`. -/
def writeToDisplay (character : Int) (displayNum : Nat) (d : Display) : Display :=
  if displayNum < 4 then
    d.store (hexBaseAddr_Low + displayNum) (decodeChar character)
  else
    d.store (hexBaseAddr_High + (displayNum - 4)) (decodeChar character)

/-- The loop `while (i <= 5) writeToDisplay(0, i++);` entered with the given `i`. -/
def turnDisplaysOffLoop (i : Nat) (d : Display) : Display :=
  if i ≤ 5 then turnDisplaysOffLoop (i + 1) (writeToDisplay 0 i d) else d
termination_by 6 - i

/-- The function `turnDisplaysOff`. -/
def turnDisplaysOff (d : Display) : Display :=
  turnDisplaysOffLoop 0 d

/-- The loop `while (i >= 0) { writeToDisplay(input[i], hexNum); i--; hexNum++; }`
entered with the given `i` and `hexNum`. -/
def displayCurrentInputLoop (input : Nat → Int) (i : Int) (hexNum : Nat) (d : Display) :
    Display :=
  if 0 ≤ i then
    displayCurrentInputLoop input (i - 1) (hexNum + 1) (writeToDisplay (input i.toNat) hexNum d)
  else d
termination_by (i + 1).toNat
decreasing_by omega

/-- Conversion of an `unsigned int` value to `int` (two's complement), as in
`int i = size-1;`. -/
def toInt32 (u : Nat) : Int :=
  if u % 2 ^ 32 < 2 ^ 31 then Int.ofNat (u % 2 ^ 32) else Int.ofNat (u % 2 ^ 32) - 2 ^ 32

/-- The function `displayCurrentInput`. Past the guard `size` is not 0, so the
`unsigned int` value `size-1` does not wrap; `toInt32` converts it to `int`. -/
def displayCurrentInput (input : Nat → Int) (size : Nat) (d : Display) : Display :=
  if size = 0 then d
  else
    let i : Int := toInt32 (size - 1)
    let hexNum : Nat := 0
    let d1 := if i < 0 then turnDisplaysOff d else d
    displayCurrentInputLoop input i hexNum d1

/-- The render loop of `displayResult`:
`for (; i < 6 && i < bufferFilledLen; i++) writeToDisplay(buffer[i], 5-i);`
entered with the given `i`. The buffer and its `strlen` are parameters: they
come from `sprintf` of a `double`. -/
def displayResultLoop (buffer : Nat → Int) (bufferFilledLen : Nat) (i : Nat) (d : Display) :
    Display :=
  if i < 6 ∧ i < bufferFilledLen then
    displayResultLoop buffer bufferFilledLen (i + 1) (writeToDisplay (buffer i) (5 - i) d)
  else d
termination_by 6 - i
decreasing_by omega

/-- The part of `displayResult` after `sprintf` and `strlen`. -/
def displayResult (buffer : Nat → Int) (bufferFilledLen : Nat) (d : Display) : Display :=
  displayResultLoop buffer bufferFilledLen 0 d

/-- The characters of a string as a character buffer, NUL after its end. -/
def bufferOf (s : String) : Nat → Int :=
  fun i => (s.toList.map charCode).getD i 0

/-- Address of the display byte of position `p`: positions 0-3 are bytes 0-3 of
the low bank, positions 4 and up are bytes `p - 4` of the high bank. -/
def positionAddr (p : Nat) : Nat :=
  if p < 4 then hexBaseAddr_Low + p else hexBaseAddr_High + (p - 4)

/-- The pattern that display position `p` shows. -/
def shown (d : Display) (p : Nat) : Nat := d.bytes (positionAddr p)

/-- A display with all segments off and no store issued yet. -/
def blankDisplay : Display := ⟨fun _ => 0, []⟩

/-- A display with all seven segments of every position lit and no store issued yet. -/
def litDisplay : Display := ⟨fun _ => 0x7F, []⟩

/-! ## Keypad scanner -/

/-- Access to `volatile` device words: `load addr dev` is the value read and the
device after the read, `store addr value dev` the device after the write. -/
structure Port (σ : Type) where
  load : Nat → σ → Nat × σ
  store : Nat → Nat → σ → σ

/-- A register file that reads back what was last stored, keyed by byte address. -/
def ramPort : Port (Nat → Nat) where
  load addr regs := (regs addr, regs)
  store addr value regs := fun a => if a = addr then value else regs a

/-- The globals `currentKeypad` and `pastKeypad`, and the device behind the GPIO
pointers. -/
structure Machine (σ : Type) where
  currentKeypad : Nat → Nat → Int
  pastKeypad : Nat → Nat → Int
  dev : σ

/-- The assignment `grid[row][col] = value`. -/
def setCell (grid : Nat → Nat → Int) (row col : Nat) (value : Int) : Nat → Nat → Int :=
  fun r c => if r = row ∧ c = col then value else grid r c

/-- The inner loop of `scanKeypad`, entered with the given `col`: save the cell
into `pastKeypad`, then test `(*GPIO0_ADDR + 0x50) & colSelect[col]` (one volatile
load, an `unsigned int` addition) and store 1 or 0 into `currentKeypad`; the loop
continues with `col + 1` from either branch. -/
def scanKeypadCols {σ : Type} (P : Port σ) (row col : Nat) (m : Machine σ) : Machine σ :=
  if col < KEYPAD_COLS then
    let m1 := { m with pastKeypad := setCell m.pastKeypad row col (m.currentKeypad row col) }
    let rd := P.load GPIO0_ADDR m1.dev
    let m2 := { m1 with dev := rd.2 }
    if ((rd.1 + 0x50) % 2 ^ 32) &&& colSelect.getD col 0 ≠ 0 then
      scanKeypadCols P row (col + 1) { m2 with currentKeypad := setCell m2.currentKeypad row col 1 }
    else
      scanKeypadCols P row (col + 1) { m2 with currentKeypad := setCell m2.currentKeypad row col 0 }
  else m
termination_by KEYPAD_COLS - col
decreasing_by all_goals omega

/-- The row-select step of `scanKeypad`:
`*(GPIO0_ADDR) |= rowSelect[row]; *(GPIO0_ADDR) &= (UINT_MAX & rowSelect[row]);`,
each a load followed by a store. -/
def selectRow {σ : Type} (P : Port σ) (row : Nat) (dev : σ) : σ :=
  let rd1 := P.load GPIO0_ADDR dev
  let dev1 := P.store GPIO0_ADDR (rd1.1 ||| rowSelect.getD row 0) rd1.2
  let rd2 := P.load GPIO0_ADDR dev1
  P.store GPIO0_ADDR (rd2.1 &&& (UINT_MAX &&& rowSelect.getD row 0)) rd2.2

/-- The outer loop of `scanKeypad`, entered with the given `row`. -/
def scanKeypadRows {σ : Type} (P : Port σ) (row : Nat) (m : Machine σ) : Machine σ :=
  if row < KEYPAD_ROWS then
    scanKeypadRows P (row + 1) (scanKeypadCols P row 0 { m with dev := selectRow P row m.dev })
  else m
termination_by KEYPAD_ROWS - row
decreasing_by omega

/-- The function `scanKeypad`. -/
def scanKeypad {σ : Type} (P : Port σ) (m : Machine σ) : Machine σ :=
  scanKeypadRows P 0 m

/-- The grid with every cell 0, the initial value of both globals. -/
def zeroGrid : Nat → Nat → Int := fun _ _ => 0

/-- A keypad state with the keys on the diagonal held down. -/
def diagonalGrid : Nat → Nat → Int := fun r c => if r = c then 1 else 0

/-- A machine with the diagonal keys recorded as held, an empty `pastKeypad`, and
a register file of zeros behind the read-back port. -/
def diagonalMachine : Machine (Nat → Nat) := ⟨diagonalGrid, zeroGrid, fun _ => 0⟩

/-- A register file in which the data word at `GPIO0_ADDR` is 0 and every other
word, the external input register at offset 0x50 among them, has bits 8:5 set:
all four column lines asserted. -/
def columnsAssertedRegs : Nat → Nat := fun a => if a = GPIO0_ADDR then 0 else 0x1E0

/-- A register file of zeros: no column line asserted. -/
def columnsIdleRegs : Nat → Nat := fun _ => 0

/-- A read-back register file that also records every store, oldest first, each
as (address, value). -/
def logPort : Port ((Nat → Nat) × List (Nat × Nat)) where
  load addr s := (s.1 addr, s)
  store addr value s := (fun a => if a = addr then value else s.1 a, s.2 ++ [(addr, value)])

/-- Any port, with a record of the values its loads returned, oldest first. -/
def recordLoads {σ : Type} (P : Port σ) : Port (σ × List Nat) where
  load addr s := ((P.load addr s.1).1, ((P.load addr s.1).2, s.2 ++ [(P.load addr s.1).1]))
  store addr value s := (P.store addr value s.1, s.2)

/-- The value that the column test of cell (`row`, `col`) loaded, in the record of
one `scanKeypad` call that starts from an empty record: each row issues two loads
for its row-select step and then one load per column. -/
def columnReading (loads : List Nat) (row col : Nat) : Nat :=
  loads.getD (6 * row + 2 + col) 0

/-- The value the column test stores into `currentKeypad` for a loaded word. -/
def pressedValue (word col : Nat) : Int :=
  if ((word + 0x50) % 2 ^ 32) &&& colSelect.getD col 0 ≠ 0 then 1 else 0

/-! ## Reset and battery monitor -/

/-- Byte address held by the pointer `PERIPHERAL_RESET` of `initKeypadGPIO`. -/
def PERIPHERAL_RESET : Nat := 0xFFD05014

/-- The function `initKeypadGPIO`. `GPIO0_ADDR` points to `unsigned int`, so
`GPIO0_ADDR+0x4` and `GPIO0_ADDR+0x30` are 4 bytes per unit past the base. -/
def initKeypadGPIO {σ : Type} (P : Port σ) (dev : σ) : σ :=
  let rd := P.load PERIPHERAL_RESET dev
  let dev1 := P.store PERIPHERAL_RESET (rd.1 &&& (0b111 <<< 25)) rd.2
  let dev2 := P.store (GPIO0_ADDR + 4 * 0x4) 0b1111 dev1
  P.store (GPIO0_ADDR + 4 * 0x30) 0 dev2

/-- The local array `checkBits` of `updateBatteryPercentage`. -/
def checkBits : List Nat := [0b1 <<< 11, 0b1 <<< 12, 0b1 <<< 13, 0b1 <<< 14, 0b1 <<< 15]

/-- The loop of `updateBatteryPercentage`, entered with the given `i`: test
`(*GPIO0_ADDR + 0x50) & checkBits[i]` (one volatile load, an `unsigned int`
addition) and store 1 or 0 into element `i` of the caller's array. -/
def updateBatteryPercentageLoop {σ : Type} (P : Port σ) (i : Nat)
    (percentagePower20Intervals : Nat → Nat) (dev : σ) : (Nat → Nat) × σ :=
  if i < 5 then
    let rd := P.load GPIO0_ADDR dev
    if ((rd.1 + 0x50) % 2 ^ 32) &&& checkBits.getD i 0 ≠ 0 then
      updateBatteryPercentageLoop P (i + 1)
        (fun j => if j = i then 1 else percentagePower20Intervals j) rd.2
    else
      updateBatteryPercentageLoop P (i + 1)
        (fun j => if j = i then 0 else percentagePower20Intervals j) rd.2
  else (percentagePower20Intervals, dev)
termination_by 5 - i
decreasing_by all_goals omega

/-- The state of the whole file: the keypad grids with the GPIO device, and the
display registers. -/
structure World (σ : Type) where
  machine : Machine σ
  display : Display

/-- The function `updateBatteryPercentage`, on the caller's array and the state of
the whole file; the array is the caller's own and overlaps nothing else. -/
def updateBatteryPercentage {σ : Type} (P : Port σ) (percentagePower20Intervals : Nat → Nat)
    (w : World σ) : (Nat → Nat) × World σ :=
  let r := updateBatteryPercentageLoop P 0 percentagePower20Intervals w.machine.dev
  (r.1, { w with machine := { w.machine with dev := r.2 } })

/-- A register file in which the data word at `GPIO0_ADDR` is 0 and every other
word, the external input register at offset 0x50 among them, has bits 15:11 set:
all five battery threshold lines asserted. -/
def thresholdsAssertedRegs : Nat → Nat := fun a => if a = GPIO0_ADDR then 0 else 0xF800

/-- A register file whose words all hold 0x7B0: no bit of 15:11 set anywhere. -/
def thresholdsIdleRegs : Nat → Nat := fun _ => 0x7B0

/-- A register file with every bit of every word set. -/
def allOnesRegs : Nat → Nat := fun _ => 0xFFFFFFFF

/-- The characters the encoder supports: the digits, then '.', '^', 's', 'c',
't', 'l', '+', '*', '-', '/', '!', '(' and ')'. -/
def supportedAlphabet : List Int :=
  ['0', '1', '2', '3', '4', '5', '6', '7', '8', '9', '.', '^', 's', 'c', 't', 'l', '+', '*',
    '-', '/', '!', '(', ')'].map charCode

/-- The same machine with the record of a recording port emptied, as at the start
of a scan whose loads are to be observed. -/
def restartRecord {σ : Type} (m : Machine (σ × List Nat)) : Machine (σ × List Nat) :=
  { m with dev := (m.dev.1, []) }

/-- The diagonal keypad state over a recording read-back register file of zeros. -/
def recordedDiagonal : Machine ((Nat → Nat) × List Nat) :=
  ⟨diagonalGrid, zeroGrid, (fun _ => 0, [])⟩

/-- A register file of zeros: in particular no row-select bit is set in the data
word. -/
def zeroRegs : Nat → Nat := fun _ => 0

/-- The state of the whole file with empty keypad grids, a blank display and all
five battery threshold lines asserted. -/
def thresholdsAssertedWorld : World (Nat → Nat) :=
  ⟨⟨zeroGrid, zeroGrid, thresholdsAssertedRegs⟩, blankDisplay⟩

/-- The state of the whole file with empty keypad grids, a blank display and no
battery threshold line asserted. -/
def thresholdsIdleWorld : World (Nat → Nat) :=
  ⟨⟨zeroGrid, zeroGrid, thresholdsIdleRegs⟩, blankDisplay⟩

/-- The state of the whole file with the diagonal keys held and a fully lit
display. -/
def busyWorld : World (Nat → Nat) :=
  ⟨⟨diagonalGrid, diagonalGrid, thresholdsIdleRegs⟩, litDisplay⟩

/-- A caller's array whose elements all hold 7 before the call. -/
def staleArray : Nat → Nat := fun _ => 7

/-- One access to a device word: a load with the value it returned, or a store
with the value it wrote. -/
inductive BusEvent where
  | load (addr value : Nat)
  | store (addr value : Nat)
deriving DecidableEq

/-- A read-back register file that records every access, loads and stores alike,
in program order, oldest first. -/
def tracePort : Port ((Nat → Nat) × List BusEvent) where
  load addr s := (s.1 addr, (s.1, s.2 ++ [BusEvent.load addr (s.1 addr)]))
  store addr value s :=
    (fun a => if a = addr then value else s.1 a, s.2 ++ [BusEvent.store addr value])

/-! ## Lemmas: keypad scanner -/

theorem setCell_same (grid : Nat → Nat → Int) (row col : Nat) (value : Int) :
    setCell grid row col value row col = value := by
  simp [setCell]

theorem setCell_other (grid : Nat → Nat → Int) (row col : Nat) (value : Int) (r c : Nat)
    (h : ¬ (r = row ∧ c = col)) : setCell grid row col value r c = grid r c := by
  simp only [setCell, if_neg h]

/-- The column loop entered at `col`, with `n` columns left: `pastKeypad` receives
the prior `currentKeypad` in the cells it visits, and no other cell of either
grid changes. -/
theorem scanKeypadCols_grids {σ : Type} (P : Port σ) (row : Nat) (n : Nat) :
    ∀ (col : Nat) (m : Machine σ), col + n = 4 → ∀ r c : Nat,
      (scanKeypadCols P row col m).pastKeypad r c =
          (if r = row ∧ col ≤ c ∧ c < 4 then m.currentKeypad r c else m.pastKeypad r c) ∧
      (¬ (r = row ∧ col ≤ c ∧ c < 4) →
        (scanKeypadCols P row col m).currentKeypad r c = m.currentKeypad r c) := by
  induction n with
  | zero =>
    intro col m h r c
    have hcol : ¬ col < KEYPAD_COLS := by unfold KEYPAD_COLS; omega
    unfold scanKeypadCols
    rw [if_neg hcol]
    refine ⟨?_, fun _ => rfl⟩
    rw [if_neg (by omega)]
  | succ n ih =>
    intro col m h r c
    have hlt : col < KEYPAD_COLS := by unfold KEYPAD_COLS; omega
    have key : ∀ (v : Int) (dev1 : σ),
        (scanKeypadCols P row (col + 1)
            ⟨setCell m.currentKeypad row col v,
              setCell m.pastKeypad row col (m.currentKeypad row col), dev1⟩).pastKeypad r c =
          (if r = row ∧ col ≤ c ∧ c < 4 then m.currentKeypad r c else m.pastKeypad r c) ∧
        (¬ (r = row ∧ col ≤ c ∧ c < 4) →
          (scanKeypadCols P row (col + 1)
            ⟨setCell m.currentKeypad row col v,
              setCell m.pastKeypad row col (m.currentKeypad row col), dev1⟩).currentKeypad r c =
            m.currentKeypad r c) := by
      intro v dev1
      obtain ⟨h1, h2⟩ := ih (col + 1)
        ⟨setCell m.currentKeypad row col v,
          setCell m.pastKeypad row col (m.currentKeypad row col), dev1⟩ (by omega) r c
      constructor
      · rw [h1]
        dsimp only
        by_cases hcell : r = row ∧ c = col
        · obtain ⟨e1, e2⟩ := hcell
          subst e1; subst e2
          rw [if_neg (by omega), if_pos (by omega), setCell_same]
        · rw [setCell_other _ _ _ _ _ _ hcell, setCell_other _ _ _ _ _ _ hcell]
          by_cases h3 : r = row ∧ col + 1 ≤ c ∧ c < 4
          · rw [if_pos h3, if_pos (by omega)]
          · rw [if_neg h3, if_neg (by omega)]
      · intro hn
        rw [h2 (by omega)]
        dsimp only
        rw [setCell_other _ _ _ _ _ _ (by omega)]
    unfold scanKeypadCols
    rw [if_pos hlt]
    dsimp only
    by_cases hp : ((P.load GPIO0_ADDR m.dev).1 + 0x50) % 2 ^ 32 &&& colSelect.getD col 0 ≠ 0
    · rw [if_pos hp]
      exact key 1 _
    · rw [if_neg hp]
      exact key 0 _

/-- The row loop entered at `row`, with `n` rows left. -/
theorem scanKeypadRows_grids {σ : Type} (P : Port σ) (n : Nat) :
    ∀ (row : Nat) (m : Machine σ), row + n = 4 → ∀ r c : Nat,
      (scanKeypadRows P row m).pastKeypad r c =
          (if row ≤ r ∧ r < 4 ∧ c < 4 then m.currentKeypad r c else m.pastKeypad r c) ∧
      (¬ (row ≤ r ∧ r < 4 ∧ c < 4) →
        (scanKeypadRows P row m).currentKeypad r c = m.currentKeypad r c) := by
  induction n with
  | zero =>
    intro row m h r c
    have hrow : ¬ row < KEYPAD_ROWS := by unfold KEYPAD_ROWS; omega
    unfold scanKeypadRows
    rw [if_neg hrow]
    refine ⟨?_, fun _ => rfl⟩
    rw [if_neg (by omega)]
  | succ n ih =>
    intro row m h r c
    have hlt : row < KEYPAD_ROWS := by unfold KEYPAD_ROWS; omega
    unfold scanKeypadRows
    rw [if_pos hlt]
    obtain ⟨h1, h2⟩ := ih (row + 1) (scanKeypadCols P row 0 { m with dev := selectRow P row m.dev })
      (by omega) r c
    obtain ⟨g1, g2⟩ := scanKeypadCols_grids P row 4 0 { m with dev := selectRow P row m.dev }
      (by omega) r c
    dsimp only at g1 g2
    constructor
    · rw [h1, g1]
      by_cases a1 : row + 1 ≤ r ∧ r < 4 ∧ c < 4
      · rw [if_pos a1, if_pos (by omega), g2 (by omega)]
      · rw [if_neg a1]
        by_cases a2 : r = row ∧ 0 ≤ c ∧ c < 4
        · rw [if_pos a2, if_pos (by omega)]
        · rw [if_neg a2, if_neg (by omega)]
    · intro hn
      rw [h2 (by omega), g2 (by omega)]

/-- One scan copies the prior `currentKeypad` into `pastKeypad`, whatever the
port returns. -/
theorem scanKeypad_pastKeypad {σ : Type} (P : Port σ) (m : Machine σ) (r c : Nat)
    (hr : r < 4) (hc : c < 4) :
    (scanKeypad P m).pastKeypad r c = m.currentKeypad r c := by
  have h := (scanKeypadRows_grids P 4 0 m (by omega) r c).1
  rw [if_pos (by omega)] at h
  exact h

/-! ## Lemmas: display driver -/

theorem positionAddr_inj {p q : Nat} (h : positionAddr p = positionAddr q) : p = q := by
  unfold positionAddr hexBaseAddr_Low hexBaseAddr_High at h
  split_ifs at h <;> omega

theorem writeToDisplay_eq (ch : Int) (p : Nat) (d : Display) :
    writeToDisplay ch p d = d.store (positionAddr p) (decodeChar ch) := by
  unfold writeToDisplay positionAddr
  split_ifs <;> rfl

theorem writeToDisplay_bytes (ch : Int) (p : Nat) (d : Display) (a : Nat) :
    (writeToDisplay ch p d).bytes a = if a = positionAddr p then decodeChar ch else d.bytes a := by
  rw [writeToDisplay_eq]; rfl

theorem writeToDisplay_writes (ch : Int) (p : Nat) (d : Display) :
    (writeToDisplay ch p d).writes = d.writes ++ [(positionAddr p, decodeChar ch)] := by
  rw [writeToDisplay_eq]; rfl

theorem displayCurrentInputLoop_neg (input : Nat → Int) (i : Int) (hexNum : Nat) (d : Display)
    (h : i < 0) : displayCurrentInputLoop input i hexNum d = d := by
  unfold displayCurrentInputLoop
  rw [if_neg (by omega)]

theorem displayCurrentInputLoop_succ (input : Nat → Int) (k : Nat) (hexNum : Nat) (d : Display) :
    displayCurrentInputLoop input (Int.ofNat (k + 1) - 1) hexNum d =
      displayCurrentInputLoop input (Int.ofNat k - 1) (hexNum + 1)
        (writeToDisplay (input k) hexNum d) := by
  rw [displayCurrentInputLoop]
  have e : Int.ofNat (k + 1) - 1 = Int.ofNat k := by simp
  rw [e, if_pos (by simp)]
  simp

/-- The input loop entered with `i = k - 1` runs `k` times: it stores the
character `input[k-1-j]` at position `hexNum + j` for each `j < k`, in that
order, and touches no other byte. -/
theorem displayCurrentInputLoop_spec (input : Nat → Int) (k : Nat) :
    ∀ (hexNum : Nat) (d : Display),
      (∀ a, (∀ j, j < k → a ≠ positionAddr (hexNum + j)) →
        (displayCurrentInputLoop input (Int.ofNat k - 1) hexNum d).bytes a = d.bytes a) ∧
      (∀ j, j < k →
        (displayCurrentInputLoop input (Int.ofNat k - 1) hexNum d).bytes (positionAddr (hexNum + j))
          = decodeChar (input (k - 1 - j))) ∧
      (displayCurrentInputLoop input (Int.ofNat k - 1) hexNum d).writes =
        d.writes ++ (List.range k).map
          (fun j => (positionAddr (hexNum + j), decodeChar (input (k - 1 - j)))) := by
  induction k with
  | zero =>
    intro hexNum d
    rw [displayCurrentInputLoop_neg _ _ _ _ (by simp)]
    refine ⟨fun _ _ => rfl, fun j hj => absurd hj (Nat.not_lt_zero j), by simp⟩
  | succ k ih =>
    intro hexNum d
    rw [displayCurrentInputLoop_succ]
    obtain ⟨h1, h2, h3⟩ := ih (hexNum + 1) (writeToDisplay (input k) hexNum d)
    refine ⟨?_, ?_, ?_⟩
    · intro a ha
      have h0 := ha 0 (by omega)
      rw [Nat.add_zero] at h0
      rw [h1 a (fun j hj => by have := ha (j + 1) (by omega); rwa [Nat.add_assoc, Nat.add_comm 1 j]),
        writeToDisplay_bytes, if_neg h0]
    · intro j hj
      cases j with
      | zero =>
        rw [h1 _ (fun j _ hc => by have := positionAddr_inj hc; omega), writeToDisplay_bytes]
        simp
      | succ j =>
        have := h2 j (by omega)
        rw [Nat.add_assoc, Nat.add_comm 1 j] at this
        rw [this]
        congr 2
        omega
    · rw [h3, writeToDisplay_writes, List.range_succ_eq_map, List.map_cons, List.map_map,
        List.append_assoc]
      simp only [List.singleton_append, Nat.add_zero, Nat.sub_zero, Nat.add_sub_cancel]
      congr 2
      apply List.map_congr_left
      intro j _
      simp only [Function.comp, Nat.succ_eq_add_one]
      rw [Nat.add_assoc, Nat.add_comm 1 j]
      congr 3
      omega

/-- For a length from 1 to `2 ^ 31` the converted index `i` is `size - 1`, not
negative, so `displayCurrentInput` is its loop entered at `hexNum = 0`. -/
theorem displayCurrentInput_eq_loop (input : Nat → Int) (size : Nat) (d : Display)
    (h1 : 1 ≤ size) (h2 : size ≤ 2 ^ 31) :
    displayCurrentInput input size d =
      displayCurrentInputLoop input (Int.ofNat size - 1) 0 d := by
  have hmod : (size - 1) % 2 ^ 32 = size - 1 := Nat.mod_eq_of_lt (by omega)
  have hi : toInt32 (size - 1) = Int.ofNat size - 1 := by
    unfold toInt32
    rw [hmod, if_pos (by omega)]
    simp only [Int.ofNat_eq_coe]
    omega
  unfold displayCurrentInput
  rw [if_neg (by omega)]
  simp only [hi]
  rw [if_neg (by simp only [Int.ofNat_eq_coe]; omega)]

/-- The render loop entered at `i` with `k` characters left to render. -/
theorem displayResultLoop_spec (buffer : Nat → Int) (len : Nat) (k : Nat) :
    ∀ (i : Nat) (d : Display), i + k = min 6 len →
      (∀ a, (∀ j, i ≤ j → j < min 6 len → a ≠ positionAddr (5 - j)) →
        (displayResultLoop buffer len i d).bytes a = d.bytes a) ∧
      (∀ j, i ≤ j → j < min 6 len →
        (displayResultLoop buffer len i d).bytes (positionAddr (5 - j)) = decodeChar (buffer j)) ∧
      (displayResultLoop buffer len i d).writes =
        d.writes ++ (List.range k).map
          (fun t => (positionAddr (5 - (i + t)), decodeChar (buffer (i + t)))) := by
  induction k with
  | zero =>
    intro i d h
    unfold displayResultLoop
    rw [if_neg (by omega)]
    refine ⟨fun _ _ => rfl, fun j h1 h2 => by omega, by simp⟩
  | succ k ih =>
    intro i d h
    unfold displayResultLoop
    rw [if_pos (by omega)]
    obtain ⟨h1, h2, h3⟩ := ih (i + 1) (writeToDisplay (buffer i) (5 - i) d) (by omega)
    refine ⟨?_, ?_, ?_⟩
    · intro a ha
      rw [h1 a (fun j hj1 hj2 => ha j (by omega) hj2), writeToDisplay_bytes,
        if_neg (ha i (le_refl i) (by omega))]
    · intro j hj1 hj2
      by_cases hji : j = i
      · subst hji
        rw [h1 _ (fun t ht1 ht2 hc => by have := positionAddr_inj hc; omega), writeToDisplay_bytes,
          if_pos rfl]
      · exact h2 j (by omega) hj2
    · rw [h3, writeToDisplay_writes, List.range_succ_eq_map, List.map_cons, List.map_map,
        List.append_assoc]
      simp only [List.singleton_append, Nat.add_zero]
      congr 2
      apply List.map_congr_left
      intro t _
      simp only [Function.comp, Nat.succ_eq_add_one]
      rw [Nat.add_assoc, Nat.add_comm 1 t]

/-! ## Claims -/

/-- Claim C1: for every initial keypad state and whatever the port returns on each
load, after a call to `scanKeypad` every one of the 16 cells of `pastKeypad` holds
what `currentKeypad` held immediately before the call; hence `pastKeypad` after
scan `N + 1` equals `currentKeypad` after scan `N`. -/
theorem scanKeypad_past_eq_prior_current {σ : Type} (P : Port σ) (m : Machine σ) (r c : Nat)
    (hr : r < 4) (hc : c < 4) :
    (scanKeypad P m).pastKeypad r c = m.currentKeypad r c ∧
    ∀ N : Nat,
      ((scanKeypad P)^[N + 1] m).pastKeypad r c = ((scanKeypad P)^[N] m).currentKeypad r c := by
  refine ⟨scanKeypad_pastKeypad P m r c hr hc, fun N => ?_⟩
  rw [Function.iterate_succ_apply']
  exact scanKeypad_pastKeypad P _ r c hr hc

/-- Claim C1 at the read-back port, the diagonal keypad state and cell (1, 1). -/
theorem scanKeypad_past_eq_prior_current_witness :
    1 < 4 ∧ 1 < 4 ∧
    (scanKeypad ramPort diagonalMachine).pastKeypad 1 1 = diagonalMachine.currentKeypad 1 1 ∧
    ((scanKeypad ramPort)^[2 + 1] diagonalMachine).pastKeypad 1 1 =
      ((scanKeypad ramPort)^[2] diagonalMachine).currentKeypad 1 1 :=
  ⟨by decide, by decide,
    (scanKeypad_past_eq_prior_current ramPort diagonalMachine 1 1 (by decide) (by decide)).1,
    (scanKeypad_past_eq_prior_current ramPort diagonalMachine 1 1 (by decide) (by decide)).2 2⟩

/-- Claim C2, the code at two register files behind the read-back port: with all
four column lines asserted in the external input register (bits 8:5 of the word
at offset 0x50) the cell (0, 0) is still stored as 0, and with no column line
asserted the cell (0, 1) is stored as 1. The scan tests the data word at
`GPIO0_ADDR` plus the constant 0x50 against bits 7:4. -/
theorem scanKeypad_current_ignores_column_lines :
    columnsAssertedRegs (GPIO0_ADDR + 0x50) = 0x1E0 ∧
    (scanKeypad ramPort ⟨zeroGrid, zeroGrid, columnsAssertedRegs⟩).currentKeypad 0 0 = 0 ∧
    columnsIdleRegs (GPIO0_ADDR + 0x50) = 0 ∧
    (scanKeypad ramPort ⟨zeroGrid, zeroGrid, columnsIdleRegs⟩).currentKeypad 0 1 = 1 := by
  refine ⟨by decide, ?_, rfl, ?_⟩
  · simp +decide [scanKeypad, scanKeypadRows, scanKeypadCols, selectRow, ramPort, setCell,
      zeroGrid, KEYPAD_ROWS, KEYPAD_COLS, rowSelect, colSelect, UINT_MAX, GPIO0_ADDR,
      columnsAssertedRegs]
  · simp +decide [scanKeypad, scanKeypadRows, scanKeypadCols, selectRow, ramPort, setCell,
      zeroGrid, KEYPAD_ROWS, KEYPAD_COLS, rowSelect, colSelect, UINT_MAX, GPIO0_ADDR,
      columnsIdleRegs]

/-- Claim C3: for every character that is not a digit '0'..'9' and not one of
'.', '^', 's', 'c', 't', 'l', '+', '*', '-', '/', '!', '(' and ')', `decodeChar`
returns 0, the pattern with all segments off. -/
theorem decodeChar_outside_alphabet (c : Int)
    (hdigit : ¬ (charCode '0' ≤ c ∧ c ≤ charCode '9'))
    (hsym : c ∉ [charCode '.', charCode '^', charCode 's', charCode 'c', charCode 't',
      charCode 'l', charCode '+', charCode '*', charCode '-', charCode '/', charCode '!',
      charCode '(', charCode ')']) :
    decodeChar c = 0 := by
  simp only [List.mem_cons, List.mem_singleton, not_or, List.not_mem_nil, not_false_eq_true,
    and_true] at hsym
  unfold decodeChar
  simp only [hdigit, hsym, if_false]

/-- Claim C3 at the character 'n', which the comment of `writeToDisplay` lists
but the `switch` does not handle. -/
theorem decodeChar_outside_alphabet_witness :
    ¬ (charCode '0' ≤ charCode 'n' ∧ charCode 'n' ≤ charCode '9') ∧
    charCode 'n' ∉ [charCode '.', charCode '^', charCode 's', charCode 'c', charCode 't',
      charCode 'l', charCode '+', charCode '*', charCode '-', charCode '/', charCode '!',
      charCode '(', charCode ')'] ∧
    decodeChar (charCode 'n') = 0 :=
  ⟨by decide, by decide, decodeChar_outside_alphabet (charCode 'n') (by decide) (by decide)⟩

/-- Claim C4: for every character and every position `p` in 0..5, `writeToDisplay`
issues one store of `decodeChar ch`: to byte `p` of the low bank when `p` is in
0..3, to byte `p - 4` of the high bank when `p` is 4 or 5 (position 4 is offset 0
of the high bank). Every other byte, the other five display bytes among them,
is unchanged. -/
theorem writeToDisplay_sets_one_byte (ch : Int) (p : Nat) (d : Display) (hp : p ≤ 5) :
    (p < 4 →
      (writeToDisplay ch p d).bytes (hexBaseAddr_Low + p) = decodeChar ch ∧
      (∀ a, a ≠ hexBaseAddr_Low + p → (writeToDisplay ch p d).bytes a = d.bytes a) ∧
      (writeToDisplay ch p d).writes = d.writes ++ [(hexBaseAddr_Low + p, decodeChar ch)]) ∧
    (4 ≤ p →
      (writeToDisplay ch p d).bytes (hexBaseAddr_High + (p - 4)) = decodeChar ch ∧
      (∀ a, a ≠ hexBaseAddr_High + (p - 4) → (writeToDisplay ch p d).bytes a = d.bytes a) ∧
      (writeToDisplay ch p d).writes = d.writes ++ [(hexBaseAddr_High + (p - 4), decodeChar ch)]) ∧
    (∀ q, q ≤ 5 → q ≠ p →
      (q < 4 →
        (writeToDisplay ch p d).bytes (hexBaseAddr_Low + q) = d.bytes (hexBaseAddr_Low + q)) ∧
      (4 ≤ q →
        (writeToDisplay ch p d).bytes (hexBaseAddr_High + (q - 4)) =
          d.bytes (hexBaseAddr_High + (q - 4)))) := by
  refine ⟨fun h => ?_, fun h => ?_, fun q hq hne => ⟨fun h => ?_, fun h => ?_⟩⟩
  · unfold writeToDisplay
    rw [if_pos h]
    refine ⟨by simp [Display.store], fun a ha => by simp [Display.store, ha], rfl⟩
  · unfold writeToDisplay
    rw [if_neg (by omega)]
    refine ⟨by simp [Display.store], fun a ha => by simp [Display.store, ha], rfl⟩
  · rw [writeToDisplay_bytes, if_neg]
    unfold positionAddr hexBaseAddr_Low hexBaseAddr_High
    split_ifs <;> omega
  · rw [writeToDisplay_bytes, if_neg]
    unfold positionAddr hexBaseAddr_Low hexBaseAddr_High
    split_ifs <;> omega

/-- Claim C4 at the character '7' and position 4 on a fully lit display: byte 0 of
the high bank receives the pattern and position 5, byte 1 of the high bank, keeps
its contents. -/
theorem writeToDisplay_sets_one_byte_witness :
    4 ≤ 5 ∧ 4 ≤ 4 ∧
    (writeToDisplay (charCode '7') 4 litDisplay).bytes (hexBaseAddr_High + (4 - 4)) =
      decodeChar (charCode '7') ∧
    5 ≤ 5 ∧ 5 ≠ 4 ∧ 4 ≤ 5 ∧
    (writeToDisplay (charCode '7') 4 litDisplay).bytes (hexBaseAddr_High + (5 - 4)) =
      litDisplay.bytes (hexBaseAddr_High + (5 - 4)) :=
  ⟨by decide, by decide,
    ((writeToDisplay_sets_one_byte (charCode '7') 4 litDisplay (by decide)).2.1 (by decide)).1,
    by decide, by decide, by decide,
    ((writeToDisplay_sets_one_byte (charCode '7') 4 litDisplay (by decide)).2.2 5 (by decide)
      (by decide)).2 (by decide)⟩

/-- Claim C5: for every input buffer and every length `n` with `1 ≤ n ≤ 6`,
after `displayCurrentInput` each position `k < n` shows
`decodeChar (input[n-1-k])`: the most recent character is at position 0 and
earlier characters progress toward position 5. -/
theorem displayCurrentInput_shows_recent (input : Nat → Int) (n : Nat) (d : Display)
    (h1 : 1 ≤ n) (h6 : n ≤ 6) (k : Nat) (hk : k < n) :
    shown (displayCurrentInput input n d) k = decodeChar (input (n - 1 - k)) := by
  rw [displayCurrentInput_eq_loop input n d h1 (by omega)]
  have h := (displayCurrentInputLoop_spec input n 0 d).2.1 k hk
  rw [Nat.zero_add] at h
  exact h

/-- Claim C5 at the buffer "12+3" with length 4: position 0 shows '3', position 1
'+', position 2 '2' and position 3 '1'. -/
theorem displayCurrentInput_shows_recent_witness :
    1 ≤ 4 ∧ 4 ≤ 6 ∧
    shown (displayCurrentInput (bufferOf "12+3") 4 litDisplay) 0 = decodeChar (charCode '3') ∧
    shown (displayCurrentInput (bufferOf "12+3") 4 litDisplay) 1 = decodeChar (charCode '+') ∧
    shown (displayCurrentInput (bufferOf "12+3") 4 litDisplay) 2 = decodeChar (charCode '2') ∧
    shown (displayCurrentInput (bufferOf "12+3") 4 litDisplay) 3 = decodeChar (charCode '1') :=
  ⟨by decide, by decide,
    displayCurrentInput_shows_recent (bufferOf "12+3") 4 litDisplay (by decide) (by decide) 0
      (by decide),
    displayCurrentInput_shows_recent (bufferOf "12+3") 4 litDisplay (by decide) (by decide) 1
      (by decide),
    displayCurrentInput_shows_recent (bufferOf "12+3") 4 litDisplay (by decide) (by decide) 2
      (by decide),
    displayCurrentInput_shows_recent (bufferOf "12+3") 4 litDisplay (by decide) (by decide) 3
      (by decide)⟩

/-- Claim C6, the code at the buffer "1234567" with length 7 on a blank display:
it issues seven stores, not six, and the last one puts the pattern of '1' into
byte 2 of the high bank, past the two bytes of positions 4 and 5. -/
theorem displayCurrentInput_seven_chars :
    (displayCurrentInput (bufferOf "1234567") 7 blankDisplay).writes.length = 7 ∧
    (displayCurrentInput (bufferOf "1234567") 7 blankDisplay).writes.getLast? =
      some (hexBaseAddr_High + 2, decodeChar (charCode '1')) ∧
    (displayCurrentInput (bufferOf "1234567") 7 blankDisplay).bytes (hexBaseAddr_High + 2) =
      decodeChar (charCode '1') := by
  have hw := (displayCurrentInputLoop_spec (bufferOf "1234567") 7 0 blankDisplay).2.2
  have hb := (displayCurrentInputLoop_spec (bufferOf "1234567") 7 0 blankDisplay).2.1 6
    (by decide)
  rw [displayCurrentInput_eq_loop _ 7 _ (by decide) (by decide)]
  refine ⟨?_, ?_, ?_⟩
  · rw [hw]; simp [blankDisplay]
  · rw [hw]
    simp [blankDisplay, List.range_succ, positionAddr, hexBaseAddr_High]
    decide
  · exact hb

/-- Claim C7, the code at length 0 on a fully lit display: the guard
`if (size == 0) return;` leaves before `turnDisplaysOff` can run, so no store is
issued and all six positions still show 0x7F. -/
theorem displayCurrentInput_zero_keeps_display :
    (displayCurrentInput (bufferOf "") 0 litDisplay).writes = [] ∧
    shown (displayCurrentInput (bufferOf "") 0 litDisplay) 0 = 0x7F ∧
    shown (displayCurrentInput (bufferOf "") 0 litDisplay) 1 = 0x7F ∧
    shown (displayCurrentInput (bufferOf "") 0 litDisplay) 2 = 0x7F ∧
    shown (displayCurrentInput (bufferOf "") 0 litDisplay) 3 = 0x7F ∧
    shown (displayCurrentInput (bufferOf "") 0 litDisplay) 4 = 0x7F ∧
    shown (displayCurrentInput (bufferOf "") 0 litDisplay) 5 = 0x7F := by
  have h : displayCurrentInput (bufferOf "") 0 litDisplay = litDisplay := by
    unfold displayCurrentInput
    rw [if_pos rfl]
  rw [h]
  exact ⟨rfl, rfl, rfl, rfl, rfl, rfl, rfl⟩

/-- Claim C8 as stated fails: with the buffer "12+3", length 4 and a fully lit
display, positions 4 and 5 still show 0x7F after the call, not the blank
pattern. -/
theorem displayCurrentInput_trailing_not_blanked :
    1 ≤ 4 ∧ 4 < 6 ∧
    shown (displayCurrentInput (bufferOf "12+3") 4 litDisplay) 4 = 0x7F ∧
    shown (displayCurrentInput (bufferOf "12+3") 4 litDisplay) 5 = 0x7F ∧
    ¬ (∀ k, 4 ≤ k → k ≤ 5 → shown (displayCurrentInput (bufferOf "12+3") 4 litDisplay) k = 0) := by
  have h4 : shown (displayCurrentInput (bufferOf "12+3") 4 litDisplay) 4 = 0x7F := by
    simp [shown, positionAddr, displayCurrentInput, displayCurrentInputLoop, toInt32,
      writeToDisplay, Display.store, litDisplay, hexBaseAddr_High, hexBaseAddr_Low]
  have h5 : shown (displayCurrentInput (bufferOf "12+3") 4 litDisplay) 5 = 0x7F := by
    simp [shown, positionAddr, displayCurrentInput, displayCurrentInputLoop, toInt32,
      writeToDisplay, Display.store, litDisplay, hexBaseAddr_High, hexBaseAddr_Low]
  refine ⟨by decide, by decide, h4, h5, fun h => ?_⟩
  have h0 := h 4 (by decide) (by decide)
  rw [h4] at h0
  exact absurd h0 (by decide)

/-- Claim C8, amended: for every input buffer, every length `n` with `1 ≤ n < 6`
and every prior display contents, after `displayCurrentInput` the positions
`n..5` that receive no character show what they showed before the call. -/
theorem displayCurrentInput_keeps_trailing (input : Nat → Int) (n : Nat) (d : Display)
    (h1 : 1 ≤ n) (h6 : n < 6) (k : Nat) (hnk : n ≤ k) (_hk : k ≤ 5) :
    shown (displayCurrentInput input n d) k = shown d k := by
  rw [displayCurrentInput_eq_loop input n d h1 (by omega)]
  refine (displayCurrentInputLoop_spec input n 0 d).1 (positionAddr k) (fun j hj hc => ?_)
  have := positionAddr_inj hc
  omega

/-- Claim C8, amended, at the buffer "12+3" with length 4: position 5 shows after
the call what it showed before, on a fully lit display and on a blank one, where
it stays blank. -/
theorem displayCurrentInput_keeps_trailing_witness :
    1 ≤ 4 ∧ 4 < 6 ∧ 4 ≤ 5 ∧ 5 ≤ 5 ∧
    shown (displayCurrentInput (bufferOf "12+3") 4 litDisplay) 5 = shown litDisplay 5 ∧
    shown (displayCurrentInput (bufferOf "12+3") 4 blankDisplay) 5 = shown blankDisplay 5 :=
  ⟨by decide, by decide, by decide, by decide,
    displayCurrentInput_keeps_trailing (bufferOf "12+3") 4 litDisplay (by decide) (by decide) 5
      (by decide) (by decide),
    displayCurrentInput_keeps_trailing (bufferOf "12+3") 4 blankDisplay (by decide) (by decide) 5
      (by decide) (by decide)⟩

/-- Claim C9: for every formatted string, given as a buffer and its length, the
render loop of `displayResult` stores `decodeChar (buffer[i])` at position `5 - i`
for every `i < min 6 len`, in the order of `i`, issues no other store and changes
no other byte: the first characters occupy the leftmost positions. -/
theorem displayResult_renders_leftmost (buffer : Nat → Int) (len : Nat) (d : Display) :
    (∀ i, i < 6 → i < len →
      shown (displayResult buffer len d) (5 - i) = decodeChar (buffer i)) ∧
    (displayResult buffer len d).writes =
      d.writes ++ (List.range (min 6 len)).map
        (fun i => (positionAddr (5 - i), decodeChar (buffer i))) ∧
    (∀ a, (∀ i, i < 6 → i < len → a ≠ positionAddr (5 - i)) →
      (displayResult buffer len d).bytes a = d.bytes a) ∧
    (∀ p, p ≤ 5 → p + len < 6 → shown (displayResult buffer len d) p = shown d p) := by
  obtain ⟨h1, h2, h3⟩ := displayResultLoop_spec buffer len (min 6 len) 0 d (by omega)
  refine ⟨fun i hi hl => h2 i (Nat.zero_le i) (by omega), ?_, fun a ha => ?_, fun p hp hl => ?_⟩
  · unfold displayResult
    rw [h3]
    simp only [Nat.zero_add]
  · exact h1 a (fun j _ hj => ha j (by omega) (by omega))
  · refine h1 (positionAddr p) (fun j _ hj hc => ?_)
    have := positionAddr_inj hc
    omega

/-- Claim C9 at the string "3.14159": position 5 shows '3', position 4 '.',
position 3 '1', position 2 '4', position 1 '1' and position 0 '5'. -/
theorem displayResult_renders_leftmost_witness :
    0 < 6 ∧ 0 < 7 ∧ 5 < 6 ∧ 5 < 7 ∧
    shown (displayResult (bufferOf "3.14159") 7 litDisplay) (5 - 0) = decodeChar (charCode '3') ∧
    shown (displayResult (bufferOf "3.14159") 7 litDisplay) (5 - 1) = decodeChar (charCode '.') ∧
    shown (displayResult (bufferOf "3.14159") 7 litDisplay) (5 - 2) = decodeChar (charCode '1') ∧
    shown (displayResult (bufferOf "3.14159") 7 litDisplay) (5 - 3) = decodeChar (charCode '4') ∧
    shown (displayResult (bufferOf "3.14159") 7 litDisplay) (5 - 4) = decodeChar (charCode '1') ∧
    shown (displayResult (bufferOf "3.14159") 7 litDisplay) (5 - 5) = decodeChar (charCode '5') :=
  ⟨by decide, by decide, by decide, by decide,
    (displayResult_renders_leftmost (bufferOf "3.14159") 7 litDisplay).1 0 (by decide) (by decide),
    (displayResult_renders_leftmost (bufferOf "3.14159") 7 litDisplay).1 1 (by decide) (by decide),
    (displayResult_renders_leftmost (bufferOf "3.14159") 7 litDisplay).1 2 (by decide) (by decide),
    (displayResult_renders_leftmost (bufferOf "3.14159") 7 litDisplay).1 3 (by decide) (by decide),
    (displayResult_renders_leftmost (bufferOf "3.14159") 7 litDisplay).1 4 (by decide) (by decide),
    (displayResult_renders_leftmost (bufferOf "3.14159") 7 litDisplay).1 5 (by decide) (by decide)⟩

/-- Claim C10: for every prior display contents, after `turnDisplaysOff` all six
positions 0..5 show the blank pattern 0, and the call issues exactly six stores,
to positions 0, 1, 2, 3, 4, 5 in that order. -/
theorem turnDisplaysOff_blanks_all (d : Display) :
    (∀ p, p ≤ 5 → shown (turnDisplaysOff d) p = 0) ∧
    (turnDisplaysOff d).writes =
      d.writes ++ [(hexBaseAddr_Low, 0), (hexBaseAddr_Low + 1, 0), (hexBaseAddr_Low + 2, 0),
        (hexBaseAddr_Low + 3, 0), (hexBaseAddr_High, 0), (hexBaseAddr_High + 1, 0)] ∧
    (turnDisplaysOff d).writes =
      d.writes ++ (List.range 6).map (fun p => (positionAddr p, 0)) := by
  have h0 : decodeChar 0 = 0 := by decide
  refine ⟨fun p hp => ?_, ?_, ?_⟩
  · have hp6 : p < 6 := by omega
    interval_cases p <;>
      simp [shown, positionAddr, turnDisplaysOff, turnDisplaysOffLoop, writeToDisplay,
        Display.store, h0, hexBaseAddr_Low, hexBaseAddr_High]
  · simp [turnDisplaysOff, turnDisplaysOffLoop, writeToDisplay, Display.store, h0]
  · simp [turnDisplaysOff, turnDisplaysOffLoop, writeToDisplay, Display.store, h0,
      List.range_succ, positionAddr]

/-- Claim C10 on a fully lit display: position 5 shows the blank pattern after
`turnDisplaysOff`. -/
theorem turnDisplaysOff_blanks_all_witness :
    5 ≤ 5 ∧ shown (turnDisplaysOff litDisplay) 5 = 0 :=
  ⟨by decide, (turnDisplaysOff_blanks_all litDisplay).1 5 (by decide)⟩

/-! ## Lemmas: recorded scans -/

theorem pressedValue_pos {word col : Nat}
    (h : ((word + 0x50) % 2 ^ 32) &&& colSelect.getD col 0 ≠ 0) : pressedValue word col = 1 := by
  unfold pressedValue
  rw [if_pos h]

theorem pressedValue_neg {word col : Nat}
    (h : ¬ (((word + 0x50) % 2 ^ 32) &&& colSelect.getD col 0 ≠ 0)) :
    pressedValue word col = 0 := by
  unfold pressedValue
  rw [if_neg h]

/-- The column loop over a recording port entered at `col`, with `n` columns left:
the record grows by the `n` loaded words, and each visited cell of `currentKeypad`
holds the value the test gives for its word. -/
theorem scanKeypadCols_recordLoads {σ : Type} (P : Port σ) (row : Nat) (n : Nat) :
    ∀ (col : Nat) (m : Machine (σ × List Nat)), col + n = 4 →
      ∃ ext : List Nat, ext.length = n ∧
        (scanKeypadCols (recordLoads P) row col m).dev.2 = m.dev.2 ++ ext ∧
        ∀ c, col ≤ c → c < 4 →
          (scanKeypadCols (recordLoads P) row col m).currentKeypad row c =
            pressedValue (ext.getD (c - col) 0) c := by
  induction n with
  | zero =>
    intro col m h
    have hcol : ¬ col < KEYPAD_COLS := by unfold KEYPAD_COLS; omega
    refine ⟨[], rfl, ?_, fun c h1 h2 => by omega⟩
    unfold scanKeypadCols
    rw [if_neg hcol]
    simp
  | succ n ih =>
    intro col m h
    have hlt : col < KEYPAD_COLS := by unfold KEYPAD_COLS; omega
    have key : ∀ (v : Int), v = pressedValue (P.load GPIO0_ADDR m.dev.1).1 col →
        ∃ ext : List Nat, ext.length = n + 1 ∧
          (scanKeypadCols (recordLoads P) row (col + 1)
            ⟨setCell m.currentKeypad row col v,
              setCell m.pastKeypad row col (m.currentKeypad row col),
              ((P.load GPIO0_ADDR m.dev.1).2, m.dev.2 ++ [(P.load GPIO0_ADDR m.dev.1).1])⟩).dev.2
            = m.dev.2 ++ ext ∧
          ∀ c, col ≤ c → c < 4 →
            (scanKeypadCols (recordLoads P) row (col + 1)
              ⟨setCell m.currentKeypad row col v,
                setCell m.pastKeypad row col (m.currentKeypad row col),
                ((P.load GPIO0_ADDR m.dev.1).2,
                  m.dev.2 ++ [(P.load GPIO0_ADDR m.dev.1).1])⟩).currentKeypad row c =
              pressedValue (ext.getD (c - col) 0) c := by
      intro v hv
      obtain ⟨ext, hlen, hlog, hcur⟩ := ih (col + 1)
        ⟨setCell m.currentKeypad row col v,
          setCell m.pastKeypad row col (m.currentKeypad row col),
          ((P.load GPIO0_ADDR m.dev.1).2, m.dev.2 ++ [(P.load GPIO0_ADDR m.dev.1).1])⟩ (by omega)
      refine ⟨(P.load GPIO0_ADDR m.dev.1).1 :: ext, by simp [hlen], ?_, ?_⟩
      · rw [hlog]
        simp
      · intro c h1 h2
        by_cases hc : c = col
        · subst hc
          rw [(scanKeypadCols_grids (recordLoads P) row n (c + 1) _ (by omega) row c).2 (by omega)]
          dsimp only
          rw [setCell_same, Nat.sub_self, List.getD_cons_zero]
          exact hv
        · rw [hcur c (by omega) h2]
          have e : c - col = (c - (col + 1)) + 1 := by omega
          rw [e, List.getD_cons_succ]
    unfold scanKeypadCols
    rw [if_pos hlt]
    dsimp only [recordLoads]
    by_cases hp : ((P.load GPIO0_ADDR m.dev.1).1 + 0x50) % 2 ^ 32 &&& colSelect.getD col 0 ≠ 0
    · rw [if_pos hp]
      exact key 1 (pressedValue_pos hp).symm
    · rw [if_neg hp]
      exact key 0 (pressedValue_neg hp).symm

/-- The row-select step over a recording port adds its two loaded words to the
record. -/
theorem selectRow_recordLoads {σ : Type} (P : Port σ) (row : Nat) (s : σ × List Nat) :
    ∃ v1 v2 : Nat, (selectRow (recordLoads P) row s).2 = s.2 ++ [v1, v2] := by
  unfold selectRow
  simp only [recordLoads, List.append_assoc]
  exact ⟨_, _, rfl⟩

/-- The row loop over a recording port entered at `row`, with `n` rows left: the
record grows by six loaded words per row, and each visited cell of
`currentKeypad` holds the value the test gives for its word. -/
theorem scanKeypadRows_recordLoads {σ : Type} (P : Port σ) (n : Nat) :
    ∀ (row : Nat) (m : Machine (σ × List Nat)), row + n = 4 →
      ∃ ext : List Nat, ext.length = 6 * n ∧
        (scanKeypadRows (recordLoads P) row m).dev.2 = m.dev.2 ++ ext ∧
        ∀ r c, row ≤ r → r < 4 → c < 4 →
          (scanKeypadRows (recordLoads P) row m).currentKeypad r c =
            pressedValue (ext.getD (6 * (r - row) + 2 + c) 0) c := by
  induction n with
  | zero =>
    intro row m h
    have hrow : ¬ row < KEYPAD_ROWS := by unfold KEYPAD_ROWS; omega
    refine ⟨[], rfl, ?_, fun r c h1 h2 => by omega⟩
    unfold scanKeypadRows
    rw [if_neg hrow]
    simp
  | succ n ih =>
    intro row m h
    have hlt : row < KEYPAD_ROWS := by unfold KEYPAD_ROWS; omega
    obtain ⟨v1, v2, hsel⟩ := selectRow_recordLoads P row m.dev
    obtain ⟨e4, h4len, h4log, h4cur⟩ := scanKeypadCols_recordLoads P row 4 0
      { m with dev := selectRow (recordLoads P) row m.dev } (by omega)
    obtain ⟨ext, hlen, hlog, hcur⟩ := ih (row + 1)
      (scanKeypadCols (recordLoads P) row 0 { m with dev := selectRow (recordLoads P) row m.dev })
      (by omega)
    dsimp only at h4log
    unfold scanKeypadRows
    rw [if_pos hlt]
    refine ⟨[v1, v2] ++ e4 ++ ext, ?_, ?_, ?_⟩
    · simp only [List.length_append, List.length_cons, List.length_nil, h4len, hlen]
      omega
    · rw [hlog, h4log, hsel]
      simp only [List.append_assoc]
    · intro r c h1 h2 h3
      by_cases hr : r = row
      · subst hr
        rw [(scanKeypadRows_grids (recordLoads P) n (r + 1) _ (by omega) r c).2 (by omega),
          h4cur c (Nat.zero_le c) h3]
        have e : 6 * (r - r) + 2 + c = c + 2 := by omega
        rw [e, List.append_assoc, List.cons_append, List.cons_append, List.nil_append,
          List.getD_cons_succ, List.getD_cons_succ, List.getD_append _ _ _ _ (by omega),
          Nat.sub_zero]
      · rw [hcur r c (by omega) h2 h3]
        have hl : ([v1, v2] ++ e4).length = 6 := by
          simp only [List.length_append, List.length_cons, List.length_nil, h4len]
        rw [List.getD_append_right _ _ _ _ (by omega), hl]
        congr 2
        omega

/-- One scan over a recording port that starts from an empty record: every cell
of `currentKeypad` holds the value the column test gives for the word recorded for
that cell. -/
theorem scanKeypad_recordLoads_current {σ : Type} (P : Port σ) (cur past : Nat → Nat → Int)
    (dev : σ) (r c : Nat) (hr : r < 4) (hc : c < 4) :
    (scanKeypad (recordLoads P) ⟨cur, past, (dev, [])⟩).currentKeypad r c =
      pressedValue
        (columnReading (scanKeypad (recordLoads P) ⟨cur, past, (dev, [])⟩).dev.2 r c) c := by
  obtain ⟨ext, _, hlog, hcur⟩ := scanKeypadRows_recordLoads P 4 0 ⟨cur, past, (dev, [])⟩ rfl
  unfold scanKeypad columnReading
  rw [hlog, hcur r c (Nat.zero_le r) hr hc]
  simp

/-- The words loaded by a first scan of the diagonal state over the read-back
register file of zeros. -/
theorem recordedDiagonal_first_loads :
    (scanKeypad (recordLoads ramPort) (restartRecord recordedDiagonal)).dev.2 =
      [0, 8, 8, 8, 8, 8, 8, 12, 4, 4, 4, 4, 4, 6, 2, 2, 2, 2, 2, 3, 1, 1, 1, 1] := by
  simp +decide [scanKeypad, scanKeypadRows, scanKeypadCols, selectRow, recordLoads, ramPort,
    restartRecord, recordedDiagonal, KEYPAD_ROWS, KEYPAD_COLS, rowSelect, colSelect, UINT_MAX,
    GPIO0_ADDR]

/-- The words loaded by the scan that follows it. -/
theorem recordedDiagonal_second_loads :
    (scanKeypad (recordLoads ramPort)
      (restartRecord (scanKeypad (recordLoads ramPort) (restartRecord recordedDiagonal)))).dev.2 =
      [1, 9, 8, 8, 8, 8, 8, 12, 4, 4, 4, 4, 4, 6, 2, 2, 2, 2, 2, 3, 1, 1, 1, 1] := by
  simp +decide [scanKeypad, scanKeypadRows, scanKeypadCols, selectRow, recordLoads, ramPort,
    restartRecord, recordedDiagonal, KEYPAD_ROWS, KEYPAD_COLS, rowSelect, colSelect, UINT_MAX,
    GPIO0_ADDR]

/-! ## Lemmas: row select, encoder bounds, battery monitor -/

theorem or_and_absorb (x y : Nat) : (x ||| y) &&& y = y := by
  apply Nat.eq_of_testBit_eq
  intro i
  rw [Nat.testBit_and, Nat.testBit_or]
  cases x.testBit i <;> cases y.testBit i <;> rfl

theorem or_and_low (w : Nat) (h : w &&& 0b1111 = 0) : (w ||| 0b1000) &&& 0b1111 = 0b1000 := by
  apply Nat.eq_of_testBit_eq
  intro i
  have hi := congrArg (fun n => n.testBit i) h
  simp only [Nat.testBit_and, Nat.zero_testBit] at hi
  rw [Nat.testBit_and, Nat.testBit_or]
  have h8 : ∀ i, Nat.testBit 0b1000 i = true → Nat.testBit 0b1111 i = true := by
    intro i
    by_cases h4 : i < 4
    · interval_cases i <;> decide
    · rw [Nat.testBit_eq_false_of_lt (n := 0b1000)
        (lt_of_lt_of_le (by decide) (Nat.pow_le_pow_right (by decide) (by omega : 4 ≤ i)))]
      intro h; cases h
  revert hi
  have := h8 i
  revert this
  cases w.testBit i <;> cases Nat.testBit 0b1111 i <;> cases Nat.testBit 0b1000 i <;> simp

/-- On a port whose loads leave the device as it is, the column loop leaves the
device as it is. -/
theorem scanKeypadCols_dev_of_pure {σ : Type} (P : Port σ)
    (hpure : ∀ addr dev, (P.load addr dev).2 = dev) (row : Nat) (n : Nat) :
    ∀ (col : Nat) (m : Machine σ), col + n = 4 → (scanKeypadCols P row col m).dev = m.dev := by
  induction n with
  | zero =>
    intro col m h
    have hcol : ¬ col < KEYPAD_COLS := by unfold KEYPAD_COLS; omega
    unfold scanKeypadCols
    rw [if_neg hcol]
  | succ n ih =>
    intro col m h
    have hlt : col < KEYPAD_COLS := by unfold KEYPAD_COLS; omega
    unfold scanKeypadCols
    rw [if_pos hlt]
    dsimp only
    split_ifs
    · rw [ih (col + 1) _ (by omega)]
      exact hpure _ _
    · rw [ih (col + 1) _ (by omega)]
      exact hpure _ _

/-- On such a port the device after a scan is the device after the four
row-select steps. -/
theorem scanKeypad_dev_of_pure {σ : Type} (P : Port σ)
    (hpure : ∀ addr dev, (P.load addr dev).2 = dev) (m : Machine σ) :
    (scanKeypad P m).dev =
      selectRow P 3 (selectRow P 2 (selectRow P 1 (selectRow P 0 m.dev))) := by
  have hc : ∀ (row : Nat) (m : Machine σ), (scanKeypadCols P row 0 m).dev = m.dev :=
    fun row m => scanKeypadCols_dev_of_pure P hpure row 4 0 m rfl
  unfold scanKeypad
  rw [scanKeypadRows, if_pos (by decide), scanKeypadRows, if_pos (by decide), scanKeypadRows,
    if_pos (by decide), scanKeypadRows, if_pos (by decide), scanKeypadRows, if_neg (by decide)]
  simp only [hc]

/-- The row-select step on the logging register file: the data word ends as
`rowSelect[row]`, and the two stores are the word with the row bit set, then
`rowSelect[row]` alone. -/
theorem selectRow_logPort (row : Nat) (regs : Nat → Nat) (log : List (Nat × Nat)) :
    selectRow logPort row (regs, log) =
      (fun a => if a = GPIO0_ADDR then rowSelect.getD row 0 else regs a,
        log ++ [(GPIO0_ADDR, regs GPIO0_ADDR ||| rowSelect.getD row 0),
          (GPIO0_ADDR, rowSelect.getD row 0)]) := by
  have hr : UINT_MAX &&& rowSelect.getD row 0 = rowSelect.getD row 0 := by
    by_cases h : row < 4
    · interval_cases row <;> decide
    · rw [List.getD_eq_default _ _ (by simp [rowSelect]; omega)]
      rfl
  unfold selectRow
  simp only [logPort, if_true, hr, or_and_absorb, List.append_assoc, List.singleton_append]
  congr 1
  funext a
  split_ifs <;> rfl

theorem lookup_le (k : Nat) : lookup.getD k 0 ≤ 0x7F := by
  by_cases h : k < 10
  · interval_cases k <;> decide
  · rw [List.getD_eq_default _ _ (by simp [lookup]; omega)]
    omega

theorem ite_le_of_le {p : Prop} [Decidable p] {a b n : Nat} (ha : a ≤ n) (hb : b ≤ n) :
    (if p then a else b) ≤ n := by
  split <;> assumption

/-- The battery loop entered at `i`, with `n` elements left: every element it
visits ends as 0 or 1, and no other element changes. -/
theorem updateBatteryPercentageLoop_spec {σ : Type} (P : Port σ) (n : Nat) :
    ∀ (i : Nat) (out : Nat → Nat) (dev : σ), i + n = 5 →
      (∀ j, i ≤ j → j < 5 →
        (updateBatteryPercentageLoop P i out dev).1 j = 0 ∨
        (updateBatteryPercentageLoop P i out dev).1 j = 1) ∧
      (∀ j, ¬ (i ≤ j ∧ j < 5) → (updateBatteryPercentageLoop P i out dev).1 j = out j) := by
  induction n with
  | zero =>
    intro i out dev h
    unfold updateBatteryPercentageLoop
    rw [if_neg (by omega)]
    exact ⟨fun j h1 h2 => by omega, fun _ _ => rfl⟩
  | succ n ih =>
    intro i out dev h
    have key : ∀ (v : Nat) (dev1 : σ), v = 0 ∨ v = 1 →
        (∀ j, i ≤ j → j < 5 →
          (updateBatteryPercentageLoop P (i + 1)
            (fun j => if j = i then v else out j) dev1).1 j = 0 ∨
          (updateBatteryPercentageLoop P (i + 1)
            (fun j => if j = i then v else out j) dev1).1 j = 1) ∧
        (∀ j, ¬ (i ≤ j ∧ j < 5) →
          (updateBatteryPercentageLoop P (i + 1)
            (fun j => if j = i then v else out j) dev1).1 j = out j) := by
      intro v dev1 hv
      obtain ⟨h1, h2⟩ := ih (i + 1) (fun j => if j = i then v else out j) dev1 (by omega)
      refine ⟨fun j hj1 hj2 => ?_, fun j hj => ?_⟩
      · by_cases hji : j = i
        · rw [h2 j (by omega)]
          simp only [hji, if_true]
          exact hv
        · exact h1 j (by omega) hj2
      · rw [h2 j (by omega)]
        exact if_neg (by omega)
    unfold updateBatteryPercentageLoop
    rw [if_pos (by omega)]
    dsimp only
    split_ifs
    · exact key 1 _ (Or.inr rfl)
    · exact key 0 _ (Or.inl rfl)

/-- On the tracing register file the column loop entered at `col`, with `n`
columns left, leaves the registers as they are and records `n` loads of the data
word. -/
theorem scanKeypadCols_tracePort (row : Nat) (n : Nat) :
    ∀ (col : Nat) (m : Machine ((Nat → Nat) × List BusEvent)), col + n = 4 →
      (scanKeypadCols tracePort row col m).dev =
        (m.dev.1, m.dev.2 ++
          List.replicate n (BusEvent.load GPIO0_ADDR (m.dev.1 GPIO0_ADDR))) := by
  induction n with
  | zero =>
    intro col m h
    have hcol : ¬ col < KEYPAD_COLS := by unfold KEYPAD_COLS; omega
    unfold scanKeypadCols
    rw [if_neg hcol]
    simp
  | succ n ih =>
    intro col m h
    have hlt : col < KEYPAD_COLS := by unfold KEYPAD_COLS; omega
    unfold scanKeypadCols
    rw [if_pos hlt]
    dsimp only
    split_ifs
    · rw [ih (col + 1) _ (by omega)]
      simp [tracePort, List.replicate_succ]
    · rw [ih (col + 1) _ (by omega)]
      simp [tracePort, List.replicate_succ]

/-- The row-select step on the tracing register file: a load, the store of the
word with the row bit set, a load of that value, the store of `rowSelect[row]`. -/
theorem selectRow_tracePort (row : Nat) (regs : Nat → Nat) (log : List BusEvent) :
    selectRow tracePort row (regs, log) =
      (fun a => if a = GPIO0_ADDR then rowSelect.getD row 0 else regs a,
        log ++ [BusEvent.load GPIO0_ADDR (regs GPIO0_ADDR),
          BusEvent.store GPIO0_ADDR (regs GPIO0_ADDR ||| rowSelect.getD row 0),
          BusEvent.load GPIO0_ADDR (regs GPIO0_ADDR ||| rowSelect.getD row 0),
          BusEvent.store GPIO0_ADDR (rowSelect.getD row 0)]) := by
  have hr : UINT_MAX &&& rowSelect.getD row 0 = rowSelect.getD row 0 := by
    by_cases h : row < 4
    · interval_cases row <;> decide
    · rw [List.getD_eq_default _ _ (by simp [rowSelect]; omega)]
      rfl
  unfold selectRow
  simp only [tracePort, if_true, hr, or_and_absorb, List.append_assoc, List.singleton_append]
  congr 1
  funext a
  split_ifs <;> rfl

/-- The accesses of one scan on the tracing register file, in program order. -/
theorem scanKeypad_tracePort_trace (cur past : Nat → Nat → Int) (regs : Nat → Nat)
    (log : List BusEvent) :
    (scanKeypad tracePort ⟨cur, past, (regs, log)⟩).dev.2 =
      log ++ [BusEvent.load GPIO0_ADDR (regs GPIO0_ADDR),
        BusEvent.store GPIO0_ADDR (regs GPIO0_ADDR ||| 0b1000),
        BusEvent.load GPIO0_ADDR (regs GPIO0_ADDR ||| 0b1000),
        BusEvent.store GPIO0_ADDR 0b1000,
        BusEvent.load GPIO0_ADDR 0b1000, BusEvent.load GPIO0_ADDR 0b1000,
        BusEvent.load GPIO0_ADDR 0b1000, BusEvent.load GPIO0_ADDR 0b1000,
        BusEvent.load GPIO0_ADDR 0b1000, BusEvent.store GPIO0_ADDR 0b1100,
        BusEvent.load GPIO0_ADDR 0b1100, BusEvent.store GPIO0_ADDR 0b0100,
        BusEvent.load GPIO0_ADDR 0b0100, BusEvent.load GPIO0_ADDR 0b0100,
        BusEvent.load GPIO0_ADDR 0b0100, BusEvent.load GPIO0_ADDR 0b0100,
        BusEvent.load GPIO0_ADDR 0b0100, BusEvent.store GPIO0_ADDR 0b0110,
        BusEvent.load GPIO0_ADDR 0b0110, BusEvent.store GPIO0_ADDR 0b0010,
        BusEvent.load GPIO0_ADDR 0b0010, BusEvent.load GPIO0_ADDR 0b0010,
        BusEvent.load GPIO0_ADDR 0b0010, BusEvent.load GPIO0_ADDR 0b0010,
        BusEvent.load GPIO0_ADDR 0b0010, BusEvent.store GPIO0_ADDR 0b0011,
        BusEvent.load GPIO0_ADDR 0b0011, BusEvent.store GPIO0_ADDR 0b0001,
        BusEvent.load GPIO0_ADDR 0b0001, BusEvent.load GPIO0_ADDR 0b0001,
        BusEvent.load GPIO0_ADDR 0b0001, BusEvent.load GPIO0_ADDR 0b0001] := by
  have hc : ∀ (row : Nat) (m : Machine ((Nat → Nat) × List BusEvent)),
      (scanKeypadCols tracePort row 0 m).dev =
        (m.dev.1, m.dev.2 ++
          List.replicate 4 (BusEvent.load GPIO0_ADDR (m.dev.1 GPIO0_ADDR))) :=
    fun row m => scanKeypadCols_tracePort row 4 0 m rfl
  unfold scanKeypad
  rw [scanKeypadRows, if_pos (by decide), scanKeypadRows, if_pos (by decide), scanKeypadRows,
    if_pos (by decide), scanKeypadRows, if_pos (by decide), scanKeypadRows, if_neg (by decide)]
  simp +decide [hc, selectRow_tracePort, rowSelect, List.replicate]

/-! ## Claims, continued -/

/-- Claim C11, the code at two register files behind the read-back port: with all
five threshold lines asserted in the external input register (bits 15:11 of the
word at offset 0x50) every element is stored as 0, and with bits 15:11 clear in
every register element 0 is stored as 1, by a carry out of the lower bits. The
test adds the constant 0x50 to the data word loaded from `GPIO0_ADDR`. -/
theorem updateBatteryPercentage_ignores_threshold_lines :
    thresholdsAssertedRegs (GPIO0_ADDR + 0x50) = 0xF800 ∧
    (updateBatteryPercentage ramPort staleArray thresholdsAssertedWorld).1 0 = 0 ∧
    (updateBatteryPercentage ramPort staleArray thresholdsAssertedWorld).1 1 = 0 ∧
    (updateBatteryPercentage ramPort staleArray thresholdsAssertedWorld).1 2 = 0 ∧
    (updateBatteryPercentage ramPort staleArray thresholdsAssertedWorld).1 3 = 0 ∧
    (updateBatteryPercentage ramPort staleArray thresholdsAssertedWorld).1 4 = 0 ∧
    thresholdsIdleRegs GPIO0_ADDR &&& 0xF800 = 0 ∧
    thresholdsIdleRegs (GPIO0_ADDR + 0x50) &&& 0xF800 = 0 ∧
    (updateBatteryPercentage ramPort staleArray thresholdsIdleWorld).1 0 = 1 := by
  refine ⟨by decide, ?_, ?_, ?_, ?_, ?_, by decide, by decide, ?_⟩
  all_goals
    simp +decide [updateBatteryPercentage, updateBatteryPercentageLoop, ramPort,
      thresholdsAssertedWorld, thresholdsAssertedRegs, thresholdsIdleWorld, thresholdsIdleRegs,
      checkBits, GPIO0_ADDR, staleArray]

/-- Claim C12: for every character, `decodeChar` returns a 7-bit value: it is at
most 0x7F, so bit 7 of the byte written to a display is never set. -/
theorem decodeChar_le_seven_bits (c : Int) :
    decodeChar c ≤ 0x7F ∧ (decodeChar c).testBit 7 = false := by
  have h : decodeChar c ≤ 0x7F := by
    unfold decodeChar
    repeat' (first | exact lookup_le _ | decide | apply ite_le_of_le)
  exact ⟨h, Nat.testBit_eq_false_of_lt (by omega)⟩

/-- Claim C13: for every port, every caller's array and every state of the file,
`updateBatteryPercentage` leaves each of the five elements 0..4 holding 0 or 1,
leaves every other element of the array as it was, and changes neither keypad
grid nor the display registers. -/
theorem updateBatteryPercentage_frame {σ : Type} (P : Port σ) (out : Nat → Nat) (w : World σ) :
    (∀ i, i < 5 →
      (updateBatteryPercentage P out w).1 i = 0 ∨ (updateBatteryPercentage P out w).1 i = 1) ∧
    (∀ j, 5 ≤ j → (updateBatteryPercentage P out w).1 j = out j) ∧
    (updateBatteryPercentage P out w).2.machine.currentKeypad = w.machine.currentKeypad ∧
    (updateBatteryPercentage P out w).2.machine.pastKeypad = w.machine.pastKeypad ∧
    (updateBatteryPercentage P out w).2.display = w.display := by
  obtain ⟨h1, h2⟩ := updateBatteryPercentageLoop_spec P 5 0 out w.machine.dev rfl
  exact ⟨fun i hi => h1 i (Nat.zero_le i) hi, fun j hj => h2 j (by omega), rfl, rfl, rfl⟩

/-- Claim C13 at the array of sevens and a state with keys held and a lit display:
element 3 ends as 0 or 1, element 9 still holds 7, and grids and display are as
before. -/
theorem updateBatteryPercentage_frame_witness :
    3 < 5 ∧
    ((updateBatteryPercentage ramPort staleArray busyWorld).1 3 = 0 ∨
      (updateBatteryPercentage ramPort staleArray busyWorld).1 3 = 1) ∧
    5 ≤ 9 ∧ (updateBatteryPercentage ramPort staleArray busyWorld).1 9 = staleArray 9 ∧
    (updateBatteryPercentage ramPort staleArray busyWorld).2.machine.currentKeypad =
      busyWorld.machine.currentKeypad ∧
    (updateBatteryPercentage ramPort staleArray busyWorld).2.display = busyWorld.display :=
  ⟨by decide, (updateBatteryPercentage_frame ramPort staleArray busyWorld).1 3 (by decide),
    by decide, (updateBatteryPercentage_frame ramPort staleArray busyWorld).2.1 9 (by decide),
    (updateBatteryPercentage_frame ramPort staleArray busyWorld).2.2.1,
    (updateBatteryPercentage_frame ramPort staleArray busyWorld).2.2.2.2⟩

/-- Claim C14, the code at row 0 and a data word with every bit set, behind the
read-back port: the row-select step leaves the word equal to 0b1000, so bit 4,
set before the step, is clear after it. -/
theorem selectRow_clears_upper_bits :
    (selectRow ramPort 0 allOnesRegs) GPIO0_ADDR = 0b1000 ∧
    Nat.testBit (allOnesRegs GPIO0_ADDR) 4 = true ∧
    Nat.testBit ((selectRow ramPort 0 allOnesRegs) GPIO0_ADDR) 4 = false := by
  have h : (selectRow ramPort 0 allOnesRegs) GPIO0_ADDR = 0b1000 := by
    simp +decide [selectRow, ramPort, allOnesRegs, rowSelect, UINT_MAX]
  rw [h]
  exact ⟨rfl, by decide, by decide⟩

/-- Claim C15 as stated fails: starting from a data word of 0, one of the values a
scan stores into the data word is 0b1100, with the row-select bits of rows 0 and 1
both set. -/
theorem scanKeypad_writes_two_row_bits :
    zeroRegs GPIO0_ADDR &&& 0b1111 = 0 ∧
    (GPIO0_ADDR, 0b1100) ∈ (scanKeypad logPort ⟨zeroGrid, zeroGrid, (zeroRegs, [])⟩).dev.2 ∧
    Nat.testBit 0b1100 3 = true ∧ Nat.testBit 0b1100 2 = true := by
  refine ⟨by decide, ?_, by decide, by decide⟩
  rw [scanKeypad_dev_of_pure logPort (fun _ _ => rfl)]
  simp +decide [selectRow_logPort, rowSelect]

/-- Claim C15, amended: during a scan over a read-back data word that starts with
no row-select bit set, the accesses to the data word are, row by row and with
nothing in between: a load, the store of `|=`, a load, the store of `&=`, then the
four loads of the column tests. The value stored by each `&=` and loaded by each
column test of that row is `rowSelect[row]`, with one row-select bit set; the value
stored by each `|=` has that bit and, from the second row on, the bit of the row
before. Two row bits are set only between the `|=` and the `&=` of a row-select
step, and no column test loads the word then. -/
theorem scanKeypad_row_select_trace (cur past : Nat → Nat → Int) (regs : Nat → Nat)
    (log : List BusEvent) (h : regs GPIO0_ADDR &&& 0b1111 = 0) :
    (scanKeypad tracePort ⟨cur, past, (regs, log)⟩).dev.2 =
      log ++ [BusEvent.load GPIO0_ADDR (regs GPIO0_ADDR),
        BusEvent.store GPIO0_ADDR (regs GPIO0_ADDR ||| 0b1000),
        BusEvent.load GPIO0_ADDR (regs GPIO0_ADDR ||| 0b1000),
        BusEvent.store GPIO0_ADDR 0b1000,
        BusEvent.load GPIO0_ADDR 0b1000, BusEvent.load GPIO0_ADDR 0b1000,
        BusEvent.load GPIO0_ADDR 0b1000, BusEvent.load GPIO0_ADDR 0b1000,
        BusEvent.load GPIO0_ADDR 0b1000, BusEvent.store GPIO0_ADDR 0b1100,
        BusEvent.load GPIO0_ADDR 0b1100, BusEvent.store GPIO0_ADDR 0b0100,
        BusEvent.load GPIO0_ADDR 0b0100, BusEvent.load GPIO0_ADDR 0b0100,
        BusEvent.load GPIO0_ADDR 0b0100, BusEvent.load GPIO0_ADDR 0b0100,
        BusEvent.load GPIO0_ADDR 0b0100, BusEvent.store GPIO0_ADDR 0b0110,
        BusEvent.load GPIO0_ADDR 0b0110, BusEvent.store GPIO0_ADDR 0b0010,
        BusEvent.load GPIO0_ADDR 0b0010, BusEvent.load GPIO0_ADDR 0b0010,
        BusEvent.load GPIO0_ADDR 0b0010, BusEvent.load GPIO0_ADDR 0b0010,
        BusEvent.load GPIO0_ADDR 0b0010, BusEvent.store GPIO0_ADDR 0b0011,
        BusEvent.load GPIO0_ADDR 0b0011, BusEvent.store GPIO0_ADDR 0b0001,
        BusEvent.load GPIO0_ADDR 0b0001, BusEvent.load GPIO0_ADDR 0b0001,
        BusEvent.load GPIO0_ADDR 0b0001, BusEvent.load GPIO0_ADDR 0b0001] ∧
    (∀ r c, r < 4 → c < 4 →
      (scanKeypad tracePort ⟨cur, past, (regs, log)⟩).dev.2[log.length + 8 * r + 4 + c]? =
        some (BusEvent.load GPIO0_ADDR (rowSelect.getD r 0))) ∧
    (regs GPIO0_ADDR ||| 0b1000) &&& 0b1111 = 0b1000 := by
  have ht := scanKeypad_tracePort_trace cur past regs log
  refine ⟨ht, fun r c hr hc => ?_, or_and_low _ h⟩
  have idx : log.length + 8 * r + 4 + c - log.length = 8 * r + 4 + c := by omega
  rw [ht, List.getElem?_append_right (by omega), idx]
  interval_cases r <;> interval_cases c <;> rfl

/-- Claim C15, amended, at a register file of zeros and an empty record: the word
starts with no row-select bit set, the first `|=` stores 0b1000, and the column
test of cell (1, 2) loads 0b0100. -/
theorem scanKeypad_row_select_trace_witness :
    zeroRegs GPIO0_ADDR &&& 0b1111 = 0 ∧
    1 < 4 ∧ 2 < 4 ∧
    (scanKeypad tracePort ⟨zeroGrid, zeroGrid, (zeroRegs, [])⟩).dev.2[
        ([] : List BusEvent).length + 8 * 1 + 4 + 2]? =
      some (BusEvent.load GPIO0_ADDR (rowSelect.getD 1 0)) ∧
    (zeroRegs GPIO0_ADDR ||| 0b1000) &&& 0b1111 = 0b1000 :=
  ⟨by decide, by decide, by decide,
    (scanKeypad_row_select_trace zeroGrid zeroGrid zeroRegs [] (by decide)).2.1 1 2 (by decide)
      (by decide),
    (scanKeypad_row_select_trace zeroGrid zeroGrid zeroRegs [] (by decide)).2.2⟩

/-- Claim C16, the code at a reset register with every bit set, behind the
read-back port: after `initKeypadGPIO` the register holds 0x0E000000, so bits 25,
26 and 27 are still 1 and every other bit has been cleared. -/
theorem initKeypadGPIO_keeps_reset_bits :
    ( initKeypadGPIO ramPort allOnesRegs) PERIPHERAL_RESET = 0x0E000000 ∧
    Nat.testBit (( initKeypadGPIO ramPort allOnesRegs) PERIPHERAL_RESET) 25 = true ∧
    Nat.testBit (( initKeypadGPIO ramPort allOnesRegs) PERIPHERAL_RESET) 26 = true ∧
    Nat.testBit (( initKeypadGPIO ramPort allOnesRegs) PERIPHERAL_RESET) 27 = true ∧
    Nat.testBit (allOnesRegs PERIPHERAL_RESET) 0 = true ∧
    Nat.testBit (( initKeypadGPIO ramPort allOnesRegs) PERIPHERAL_RESET) 0 = false := by
  have h : ( initKeypadGPIO ramPort allOnesRegs) PERIPHERAL_RESET = 0x0E000000 := by
    simp +decide [ramPort, initKeypadGPIO, allOnesRegs, PERIPHERAL_RESET, GPIO0_ADDR]
  rw [h]
  exact ⟨rfl, by decide, by decide, by decide, by decide, by decide⟩

/-- Claim C17, the code at the documented characters '[', ']' and 'n': each is
decoded to 0, the blank pattern; the bracket patterns are returned for '(' and
')' instead. -/
theorem decodeChar_documented_chars_blank :
    decodeChar (charCode '[') = 0 ∧ decodeChar (charCode ']') = 0 ∧
    decodeChar (charCode 'n') = 0 ∧
    decodeChar (charCode '(') = leftBracketChar ∧ decodeChar (charCode ')') = rightBracketChar := by
  decide

/-- Claim C18 as stated fails: '5' and 's' are distinct supported characters with
the same pattern 0x6D. -/
theorem decodeChar_five_eq_s :
    charCode '5' ∈ supportedAlphabet ∧ charCode 's' ∈ supportedAlphabet ∧
    charCode '5' ≠ charCode 's' ∧
    decodeChar (charCode '5') = decodeChar (charCode 's') ∧ decodeChar (charCode '5') = 0x6D := by
  decide

/-- Claim C18, amended: any two distinct supported characters other than the pair
'5' and 's' are decoded to different patterns. -/
theorem decodeChar_injective_except_five_s (a b : Int) (ha : a ∈ supportedAlphabet)
    (hb : b ∈ supportedAlphabet) (hne : a ≠ b)
    (h5s : ¬ (a = charCode '5' ∧ b = charCode 's'))
    (hs5 : ¬ (a = charCode 's' ∧ b = charCode '5')) :
    decodeChar a ≠ decodeChar b := by
  have key : ∀ x ∈ supportedAlphabet, ∀ y ∈ supportedAlphabet, x ≠ y →
      ¬ (x = charCode '5' ∧ y = charCode 's') → ¬ (x = charCode 's' ∧ y = charCode '5') →
      decodeChar x ≠ decodeChar y := by
    decide
  exact key a ha b hb hne h5s hs5

/-- Claim C18, amended, at the characters '0' and '8', whose patterns differ in
one segment. -/
theorem decodeChar_injective_except_five_s_witness :
    charCode '0' ∈ supportedAlphabet ∧ charCode '8' ∈ supportedAlphabet ∧
    charCode '0' ≠ charCode '8' ∧
    ¬ (charCode '0' = charCode '5' ∧ charCode '8' = charCode 's') ∧
    ¬ (charCode '0' = charCode 's' ∧ charCode '8' = charCode '5') ∧
    decodeChar (charCode '0') ≠ decodeChar (charCode '8') :=
  ⟨by decide, by decide, by decide, by decide, by decide,
    decodeChar_injective_except_five_s (charCode '0') (charCode '8') (by decide) (by decide)
      (by decide) (by decide) (by decide)⟩

/-- Claim C19: every supported character is decoded to a non-zero pattern, so
`decodeChar` returns 0 only for a character outside the supported alphabet. -/
theorem decodeChar_supported_nonzero (c : Int) :
    (c ∈ supportedAlphabet → decodeChar c ≠ 0) ∧
    (decodeChar c = 0 → c ∉ supportedAlphabet) := by
  have key : ∀ x ∈ supportedAlphabet, decodeChar x ≠ 0 := by decide
  exact ⟨key c, fun h0 hm => key c hm h0⟩

/-- Claim C19 at the character '.', whose pattern is the single bottom segment. -/
theorem decodeChar_supported_nonzero_witness :
    charCode '.' ∈ supportedAlphabet ∧ decodeChar (charCode '.') ≠ 0 :=
  ⟨by decide, (decodeChar_supported_nonzero (charCode '.')).1 (by decide)⟩

/-- Claim C20: for every port and every initial keypad state, if the column tests
of two consecutive scans load the same word for every (row, column) pair, then
after the second scan `pastKeypad` equals `currentKeypad` in every cell, and the
second scan leaves `currentKeypad` as the first scan left it. -/
theorem scanKeypad_same_readings_no_edge {σ : Type} (P : Port σ) (m : Machine (σ × List Nat))
    (hsame : ∀ r c, r < 4 → c < 4 →
      columnReading (scanKeypad (recordLoads P) (restartRecord m)).dev.2 r c =
      columnReading (scanKeypad (recordLoads P)
        (restartRecord (scanKeypad (recordLoads P) (restartRecord m)))).dev.2 r c)
    (r c : Nat) (hr : r < 4) (hc : c < 4) :
    (scanKeypad (recordLoads P)
        (restartRecord (scanKeypad (recordLoads P) (restartRecord m)))).pastKeypad r c =
      (scanKeypad (recordLoads P)
        (restartRecord (scanKeypad (recordLoads P) (restartRecord m)))).currentKeypad r c ∧
    (scanKeypad (recordLoads P)
        (restartRecord (scanKeypad (recordLoads P) (restartRecord m)))).currentKeypad r c =
      (scanKeypad (recordLoads P) (restartRecord m)).currentKeypad r c := by
  have h1 : (scanKeypad (recordLoads P) (restartRecord m)).currentKeypad r c =
      pressedValue (columnReading (scanKeypad (recordLoads P) (restartRecord m)).dev.2 r c) c :=
    scanKeypad_recordLoads_current P m.currentKeypad m.pastKeypad m.dev.1 r c hr hc
  have h2 : (scanKeypad (recordLoads P)
        (restartRecord (scanKeypad (recordLoads P) (restartRecord m)))).currentKeypad r c =
      pressedValue (columnReading (scanKeypad (recordLoads P)
        (restartRecord (scanKeypad (recordLoads P) (restartRecord m)))).dev.2 r c) c :=
    scanKeypad_recordLoads_current P
      (scanKeypad (recordLoads P) (restartRecord m)).currentKeypad
      (scanKeypad (recordLoads P) (restartRecord m)).pastKeypad
      (scanKeypad (recordLoads P) (restartRecord m)).dev.1 r c hr hc
  have hp : (scanKeypad (recordLoads P)
        (restartRecord (scanKeypad (recordLoads P) (restartRecord m)))).pastKeypad r c =
      (scanKeypad (recordLoads P) (restartRecord m)).currentKeypad r c :=
    scanKeypad_pastKeypad (recordLoads P)
      (restartRecord (scanKeypad (recordLoads P) (restartRecord m))) r c hr hc
  have e : (scanKeypad (recordLoads P)
        (restartRecord (scanKeypad (recordLoads P) (restartRecord m)))).currentKeypad r c =
      (scanKeypad (recordLoads P) (restartRecord m)).currentKeypad r c := by
    rw [h2, ← hsame r c hr hc, ← h1]
  exact ⟨hp.trans e.symm, e⟩

/-- Claim C20 at the diagonal keypad state over the read-back register file: both
scans load the word `rowSelect[row]` at every column test, and after the second
scan cell (1, 2) of `pastKeypad` equals that cell of `currentKeypad`. -/
theorem scanKeypad_same_readings_no_edge_witness :
    (∀ r c, r < 4 → c < 4 →
      columnReading (scanKeypad (recordLoads ramPort) (restartRecord recordedDiagonal)).dev.2 r c =
      columnReading (scanKeypad (recordLoads ramPort)
        (restartRecord
          (scanKeypad (recordLoads ramPort) (restartRecord recordedDiagonal)))).dev.2 r c) ∧
    1 < 4 ∧ 2 < 4 ∧
    (scanKeypad (recordLoads ramPort)
        (restartRecord
          (scanKeypad (recordLoads ramPort) (restartRecord recordedDiagonal)))).pastKeypad 1 2 =
      (scanKeypad (recordLoads ramPort)
        (restartRecord
          (scanKeypad (recordLoads ramPort) (restartRecord recordedDiagonal)))).currentKeypad 1 2 :=
  have hsame : ∀ r c, r < 4 → c < 4 →
      columnReading (scanKeypad (recordLoads ramPort) (restartRecord recordedDiagonal)).dev.2 r c =
      columnReading (scanKeypad (recordLoads ramPort)
        (restartRecord
          (scanKeypad (recordLoads ramPort) (restartRecord recordedDiagonal)))).dev.2 r c := by
    intro r c hr hc
    rw [recordedDiagonal_first_loads, recordedDiagonal_second_loads]
    interval_cases r <;> interval_cases c <;> rfl
  ⟨hsame, by decide, by decide,
    (scanKeypad_same_readings_no_edge ramPort recordedDiagonal hsame 1 2 (by decide)
      (by decide)).1⟩

end SmartCalculator
